import Mathlib

/-! # ethereum-golang: the one-shot `mint` transaction submitter (`main.go`)

A shallow embedding of `main.go`.  The program talks to three kinds of
collaborators whose code is outside the repository:

* the operating system (`os.Open`) and the JSON-RPC node behind
  `ethclient.Client` — modelled by `World` and `Client`, records of the answers
  the run receives;
* pure library functions of go-ethereum and the Go standard library (hex
  decoding, key derivation, ABI parsing and packing, signing, hashing,
  formatting) — modelled by `Lib`, a record of functions;
* the process itself (`log.Fatal`, `fmt.Printf`) — modelled by the `Event`s a
  run appends to its trace and by the `Outcome` it ends with.

Go's `int` is taken to be 64 bits wide (every 64-bit platform).  The `for`
loop of `main` has no bound, so the embedding gives it a fuel argument: the
number of iterations that are observed.
-/

namespace EthereumGolang

/-! ## Machine integers -/

/-- Go `uint64`. -/
abbrev Uint64 := Fin (2 ^ 64)

/-- Go `int64`. -/
abbrev GoInt64 := { i : Int // -(2 ^ 63) ≤ i ∧ i < 2 ^ 63 }

/-- The conversion `int(u)` of a `uint64` on a platform with 64-bit `int`:
the bit pattern is kept, so values from `2^63` on become negative. -/
def intOfUint64 (u : Uint64) : Int :=
  if u.val < 2 ^ 63 then (u.val : Int) else (u.val : Int) - 2 ^ 64

/-- The value of `big.NewInt(x).Uint64()`: `big.Int.Uint64` returns the low 64 bits of the
absolute value of the receiver. -/
def bigUint64 (x : Int) : Uint64 :=
  ⟨x.natAbs % 2 ^ 64, Nat.mod_lt _ (by decide)⟩

/-! ## Data model -/

/-- Raw bytes. -/
abbrev Bytes := List Nat

/-- The Go struct `Config`. -/
structure Config where
  InfuraApiUrl : String
  Value : GoInt64
  WalletPrivateKey : String
  ContractAddress : String
  GasLimit : GoInt64
  ABI : String
deriving DecidableEq

/-- The value of `var config Config`: every field at its zero value. -/
def Config.zero : Config :=
  { InfuraApiUrl := ""
    Value := ⟨0, by decide⟩
    WalletPrivateKey := ""
    ContractAddress := ""
    GasLimit := ⟨0, by decide⟩
    ABI := "" }

/-- A value of `common.Address`. -/
structure Address where
  bytes : Bytes
deriving DecidableEq, Repr

/-- A value of `common.Hash`. -/
structure Hash where
  bytes : Bytes
deriving DecidableEq, Repr

/-- A value of `ecdsa.PublicKey` (the curve is fixed to secp256k1). -/
structure PublicKey where
  X : Int
  Y : Int
deriving DecidableEq, Repr

/-- A value of `ecdsa.PrivateKey`: the embedded public key and the scalar. -/
structure PrivateKey where
  PublicKey : PublicKey
  D : Int
deriving DecidableEq, Repr

/-- A value of the interface type `crypto.PublicKey`, on which `GetKey` makes
the type assertion `publicKey.(*ecdsa.PublicKey)`. -/
inductive CryptoPublicKey where
  | ecdsa (pk : PublicKey)
  | other
deriving DecidableEq, Repr

/-- The method `(*ecdsa.PrivateKey).Public`, which returns `&priv.PublicKey`. -/
def PrivateKey.Public (priv : PrivateKey) : CryptoPublicKey :=
  .ecdsa priv.PublicKey

/-- A parsed contract interface, `abi.ABI`. -/
structure ABI where
  Methods : List String
deriving DecidableEq, Repr

/-- The inner data of a legacy transaction, `types.LegacyTx`.  `types.NewTx`
copies the struct and replaces nil signature values by zero. -/
structure LegacyTx where
  Nonce : Uint64
  To : Option Address
  Value : Int
  Gas : Uint64
  GasPrice : Int
  Data : Bytes
  V : Int
  R : Int
  S : Int
deriving DecidableEq

/-- The signature values `V`, `R`, `S` computed by the signer. -/
structure Signature where
  V : Int
  R : Int
  S : Int
deriving DecidableEq, Repr

/-- A value of `types.Receipt`, reduced to the field the program reads. -/
structure Receipt where
  Status : Uint64
deriving DecidableEq

/-! ## Collaborators -/

/-- The pure library functions the program calls. -/
structure Lib where
  /-- The call `json.NewDecoder(f).Decode(&config)` on a file with the given content:
  the configuration after decoding (the returned error is dropped by the
  caller). -/
  jsonDecode : String → Config → Config
  /-- The function `crypto.HexToECDSA`. -/
  hexToECDSA : String → Except String PrivateKey
  /-- The function `crypto.PubkeyToAddress`. -/
  pubkeyToAddress : PublicKey → Address
  /-- The `%s` rendering of a `common.Address`. -/
  addressString : Address → String
  /-- The function `common.HexToAddress`. -/
  hexToAddress : String → Address
  /-- The call `abi.JSON(strings.NewReader(s))`. -/
  abiJSON : String → Except String ABI
  /-- The method `(abi.ABI).Pack(name)` with no arguments. -/
  pack : ABI → String → Except String Bytes
  /-- The signing done inside `types.SignTx` with an EIP-155 signer for the
  given chain id: hash the transaction, sign the hash with the key, and derive
  the signature values. -/
  sign : LegacyTx → Int → PrivateKey → Except String Signature
  /-- The method `(*types.Transaction).Hash`. -/
  txHash : LegacyTx → Hash
  /-- The method `(common.Hash).Hex`. -/
  hashHex : Hash → String
  /-- The function `common.HexToHash`. -/
  hexToHash : String → Hash

/-- The answers of the node behind an `*ethclient.Client`.  Receipt queries are
repeated, so their answer also depends on how many receipt queries the run has
made before. -/
structure Client where
  suggestGasPrice : Except String Int
  networkID : Except String Int
  nonceAt : Address → Except String Uint64
  sendTransaction : LegacyTx → Except String Unit
  transactionReceipt : Nat → Hash → Except String Receipt

/-- What is outside the process: the file system and the network. -/
structure World where
  /-- The call `os.Open(path)` followed by reading the whole file: an error, or the
  content of the file. -/
  openFile : String → Except String String
  /-- The call `ethclient.DialContext(ctx, url)`. -/
  dial : String → Except String Client

/-! ## Runs -/

/-- The steps of `main` that can end the process, in program order. -/
inductive Step where
  | connect
  | gasPrice
  | keyDerivation
  | chainID
  | nonce
  | abiParse
  | encode
  | sign
  | broadcast
deriving DecidableEq, Repr

/-- What a run does, as seen from outside or as a step it attempts. -/
inductive Event where
  | openFile (path : String)
  | println (line : String)
  | dial (url : String)
  | suggestGasPrice
  | getKey (key : String)
  | networkID
  | nonceAt (a : Address)
  | abiJSON (s : String)
  | pack (name : String)
  | signTx (tx : LegacyTx) (chainID : Int) (priv : PrivateKey)
  | sendTransaction (tx : LegacyTx)
  | transactionReceipt (h : Hash)
  | logFatal (msg : String)
deriving DecidableEq

/-- How far a run got. -/
inductive Outcome where
  /-- The process has exited: `log.Fatal` was called in the given step. -/
  | fatal (s : Step)
  /-- The poll loop was left after `n` iterations and `main` returned. -/
  | confirmed (n : Nat)
  /-- The observed iterations are used up and the loop is still running. -/
  | pending
deriving DecidableEq, Repr

/-- A run of the program: its events in order, and its outcome. -/
structure Run where
  trace : List Event
  outcome : Outcome
deriving DecidableEq

/-! ## The program -/

/-- The function `LoadConfiguration(file)`: the configuration it returns and
the events it causes.  When `os.Open` fails the error text is printed and the
function goes on with a nil file; the decoder then fails on its first read and
leaves `config` as declared.  The error of `Decode` is dropped in both cases. -/
def LoadConfiguration (lib : Lib) (w : World) (file : String) : Config × List Event :=
  let config := Config.zero
  match w.openFile file with
  | .error err => (config, [.openFile file, .println err])
  | .ok content => (lib.jsonDecode content config, [.openFile file])

/-- The function `GetKey(key)`.  An error stands for the call of `log.Fatal`,
which ends the process; a value is the triple the function returns, whose
third component is always nil. -/
def GetKey (lib : Lib) (key : String) : Except String (PrivateKey × Address × Option String) :=
  match lib.hexToECDSA key with
  | .error err => .error err
  | .ok privateKey =>
    let publicKey := privateKey.Public
    match publicKey with
    | .other => .error "error casting public key to ECDSA"
    | .ecdsa publicKeyECDSA =>
      let fromAddress := lib.pubkeyToAddress publicKeyECDSA
      .ok (privateKey, fromAddress, none)

/-- The function `checkTransactionReceipt(client, _txHash)`, called when the
run has made `k` receipt queries before. -/
def checkTransactionReceipt (lib : Lib) (client : Client) (k : Nat) (_txHash : String) : Int :=
  let txHash := lib.hexToHash _txHash
  match client.transactionReceipt k txHash with
  | .error _ => -1
  | .ok tx => intOfUint64 tx.Status

/-- The transaction `main` builds with `types.NewTx(&types.LegacyTx{...})`. -/
def assembleTx (lib : Lib) (config : Config) (nonce : Uint64) (gasPrice : Int) (data : Bytes) :
    LegacyTx :=
  let value := config.Value.val
  let toAddress := lib.hexToAddress config.ContractAddress
  { Nonce := nonce
    To := some toAddress
    Value := value
    Gas := bigUint64 config.GasLimit.val
    GasPrice := gasPrice
    Data := data
    V := 0
    R := 0
    S := 0 }

/-- The end of `main`: the `for` loop around `checkTransactionReceipt` and the
final `fmt.Println("tx confirmed!")`.  `fuel` is the number of iterations that
are observed and `k` the number of iterations made before. -/
def pollLoop (lib : Lib) (client : Client) (hashHex : String) : Nat → Nat → List Event × Outcome
  | 0, _ => ([], .pending)
  | fuel + 1, k =>
    let transactionStatus := checkTransactionReceipt lib client k hashHex
    let events := [Event.transactionReceipt (lib.hexToHash hashHex),
      Event.println ("tx status: " ++ toString transactionStatus)]
    if transactionStatus = 1 then
      (events ++ [Event.println "tx confirmed!"], .confirmed (k + 1))
    else
      let rest := pollLoop lib client hashHex fuel (k + 1)
      (events ++ rest.1, rest.2)

/-- The function `main`, observed for at most `fuel` iterations of its poll
loop. -/
def main (lib : Lib) (w : World) (fuel : Nat) : Run :=
  let loaded := LoadConfiguration lib w "config.json"
  let config := loaded.1
  let t0 := loaded.2 ++ [Event.dial config.InfuraApiUrl]
  match w.dial config.InfuraApiUrl with
  | .error err => ⟨t0 ++ [.logFatal err], .fatal .connect⟩
  | .ok client =>
  let t1 := t0 ++ [Event.suggestGasPrice]
  match client.suggestGasPrice with
  | .error err => ⟨t1 ++ [.logFatal err], .fatal .gasPrice⟩
  | .ok gasPrice =>
  let t2 := t1 ++ [Event.getKey config.WalletPrivateKey]
  match GetKey lib config.WalletPrivateKey with
  | .error err => ⟨t2 ++ [.logFatal err], .fatal .keyDerivation⟩
  | .ok (privateKey, fromAddress, _) =>
  let t3 := t2 ++ [Event.println ("Address: " ++ lib.addressString fromAddress), Event.networkID]
  match client.networkID with
  | .error err => ⟨t3 ++ [.logFatal err], .fatal .chainID⟩
  | .ok chainID =>
  let t4 := t3 ++ [Event.nonceAt fromAddress]
  match client.nonceAt fromAddress with
  | .error err => ⟨t4 ++ [.logFatal err], .fatal .nonce⟩
  | .ok nonce =>
  let t5 := t4 ++ [Event.abiJSON config.ABI]
  match lib.abiJSON config.ABI with
  | .error err => ⟨t5 ++ [.logFatal err], .fatal .abiParse⟩
  | .ok abiP =>
  let t6 := t5 ++ [Event.pack "mint"]
  match lib.pack abiP "mint" with
  | .error err => ⟨t6 ++ [.logFatal err], .fatal .encode⟩
  | .ok data =>
  let tx := assembleTx lib config nonce gasPrice data
  let t7 := t6 ++ [Event.signTx tx chainID privateKey]
  match lib.sign tx chainID privateKey with
  | .error err => ⟨t7 ++ [.logFatal err], .fatal .sign⟩
  | .ok sig =>
  let signedTx := { tx with V := sig.V, R := sig.R, S := sig.S }
  let t8 := t7 ++ [Event.sendTransaction signedTx]
  match client.sendTransaction signedTx with
  | .error err => ⟨t8 ++ [.logFatal err], .fatal .broadcast⟩
  | .ok _ =>
  let hashHex := lib.hashHex (lib.txHash signedTx)
  let t9 := t8 ++ [Event.println ("tx sent: " ++ hashHex)]
  let loop := pollLoop lib client hashHex fuel 0
  ⟨t9 ++ loop.1, loop.2⟩

/-! ## Reading a trace -/

/-- The lines a trace writes to standard output, in order. -/
def stdout : List Event → List String
  | [] => []
  | .println line :: es => line :: stdout es
  | _ :: es => stdout es

/-- The step an event attempts, if it attempts one. -/
def Event.step : Event → Option Step
  | .dial _ => some .connect
  | .suggestGasPrice => some .gasPrice
  | .getKey _ => some .keyDerivation
  | .networkID => some .chainID
  | .nonceAt _ => some .nonce
  | .abiJSON _ => some .abiParse
  | .pack _ => some .encode
  | .signTx _ _ _ => some .sign
  | .sendTransaction _ => some .broadcast
  | _ => none

/-- The steps a trace attempts, in order. -/
def attempted (t : List Event) : List Step :=
  t.filterMap Event.step

/-- The transactions a trace submits to the node, in order. -/
def submitted : List Event → List LegacyTx
  | [] => []
  | .sendTransaction tx :: es => tx :: submitted es
  | _ :: es => submitted es

/-- The transactions a trace hands to the signer, in order. -/
def assembled : List Event → List LegacyTx
  | [] => []
  | .signTx tx _ _ :: es => tx :: assembled es
  | _ :: es => assembled es

/-- The receipt queries a trace makes, in order. -/
def receiptQueries : List Event → List Hash
  | [] => []
  | .transactionReceipt h :: es => h :: receiptQueries es
  | _ :: es => receiptQueries es

/-- The steps of `main` in program order. -/
def Step.order : List Step :=
  [.connect, .gasPrice, .keyDerivation, .chainID, .nonce, .abiParse, .encode, .sign, .broadcast]

/-- The position of a step in program order. -/
def Step.index : Step → Nat
  | .connect => 0
  | .gasPrice => 1
  | .keyDerivation => 2
  | .chainID => 3
  | .nonce => 4
  | .abiParse => 5
  | .encode => 6
  | .sign => 7
  | .broadcast => 8

/-! ## A concrete world, for evaluating the definitions -/

/-- A library whose functions are simple stand-ins: keys are read from the
length of the hex string (only 64 characters are accepted), the ABI must be the
text `mint`, and the signature is fixed. -/
def demoLib : Lib where
  jsonDecode := fun content config =>
    if content = "demo" then
      { InfuraApiUrl := "http://node"
        Value := ⟨0, by decide⟩
        WalletPrivateKey := String.mk (List.replicate 64 'a')
        ContractAddress := "0xc0"
        GasLimit := ⟨21000, by decide⟩
        ABI := "mint" }
    else config
  hexToECDSA := fun key =>
    if key.length = 64 then .ok ⟨⟨1, 2⟩, 3⟩ else .error "invalid length, need 256 bits"
  pubkeyToAddress := fun pk => ⟨[pk.X.natAbs, pk.Y.natAbs]⟩
  addressString := fun a => toString a.bytes
  hexToAddress := fun s => ⟨[s.length]⟩
  abiJSON := fun s => if s = "mint" then .ok ⟨["mint"]⟩ else .error "invalid abi"
  pack := fun a name => if name ∈ a.Methods then .ok [0x12, 0x49, 0xc5, 0x8b] else .error "no method"
  sign := fun _ chainID _ => .ok ⟨35 + 2 * chainID, 7, 8⟩
  txHash := fun tx => ⟨[tx.Nonce.val, tx.V.natAbs]⟩
  hashHex := fun h => toString h.bytes
  hexToHash := fun s => ⟨[s.length]⟩

/-- A node that suggests gas price 1, reports chain id 1 and nonce 5, accepts
the transaction, and answers the receipt queries with: not found, status 0,
status 1, and status 1 from then on. -/
def demoClient : Client where
  suggestGasPrice := .ok 1
  networkID := .ok 1
  nonceAt := fun _ => .ok 5
  sendTransaction := fun _ => .ok ()
  transactionReceipt := fun k _ =>
    match k with
    | 0 => .error "not found"
    | 1 => .ok ⟨0⟩
    | _ => .ok ⟨1⟩

/-- A world with a readable `config.json` and a reachable node. -/
def demoWorld : World where
  openFile := fun path => if path = "config.json" then .ok "demo" else .error "no such file"
  dial := fun url => if url = "http://node" then .ok demoClient else .error "dial failed"

/-- The first step of `main`, in program order, whose collaborator answers
with an error, read off the world: each step is asked with the values the
steps before it returned.  `none` when the nine steps all succeed. -/
def firstFailingStep (lib : Lib) (w : World) : Option Step :=
  let config := (LoadConfiguration lib w "config.json").1
  match w.dial config.InfuraApiUrl with
  | .error _ => some .connect
  | .ok client =>
  match client.suggestGasPrice with
  | .error _ => some .gasPrice
  | .ok gasPrice =>
  match GetKey lib config.WalletPrivateKey with
  | .error _ => some .keyDerivation
  | .ok (privateKey, fromAddress, _) =>
  match client.networkID with
  | .error _ => some .chainID
  | .ok chainID =>
  match client.nonceAt fromAddress with
  | .error _ => some .nonce
  | .ok nonce =>
  match lib.abiJSON config.ABI with
  | .error _ => some .abiParse
  | .ok abiP =>
  match lib.pack abiP "mint" with
  | .error _ => some .encode
  | .ok data =>
  let tx := assembleTx lib config nonce gasPrice data
  match lib.sign tx chainID privateKey with
  | .error _ => some .sign
  | .ok sig =>
  match client.sendTransaction { tx with V := sig.V, R := sig.R, S := sig.S } with
  | .error _ => some .broadcast
  | .ok _ => none

/-- A node like `demoClient` whose receipts carry the status value 2. -/
def statusTwoClient : Client :=
  { demoClient with transactionReceipt := fun _ _ => .ok ⟨2⟩ }

/-- A world whose `config.json` cannot be opened and whose node is reachable
under the empty URL. -/
def noConfigWorld : World where
  openFile := fun _ => .error "open config.json: no such file or directory"
  dial := fun _ => .ok demoClient

/-- A node like `demoClient` that rejects the transaction. -/
def rejectingClient : Client :=
  { demoClient with sendTransaction := fun _ => .error "insufficient funds" }

/-- A world like `demoWorld` whose node rejects the transaction. -/
def rejectingWorld : World :=
  { demoWorld with dial := fun _ => .ok rejectingClient }

/-- A node like `demoClient` on which the transaction has reverted: every
receipt query returns a receipt with status 0. -/
def revertedClient : Client :=
  { demoClient with transactionReceipt := fun _ _ => .ok ⟨0⟩ }

/-- A world like `demoWorld` on whose node the transaction has reverted. -/
def revertedWorld : World :=
  { demoWorld with dial := fun _ => .ok revertedClient }

/-! ## Conversions -/

theorem intOfUint64_eq_one_iff (u : Uint64) : intOfUint64 u = 1 ↔ u = 1 := by
  unfold intOfUint64
  have hu := u.isLt
  constructor
  · intro h
    apply Fin.ext
    split at h
    · have : u.val = 1 := by omega
      simpa using this
    · omega
  · intro h
    subst h
    decide

theorem intOfUint64_zero : intOfUint64 0 = 0 := by decide

theorem checkTransactionReceipt_eq_one_iff (lib : Lib) (client : Client) (k : Nat)
    (hashHex : String) :
    checkTransactionReceipt lib client k hashHex = 1 ↔
      ∃ r, client.transactionReceipt k (lib.hexToHash hashHex) = .ok r ∧ r.Status = 1 := by
  cases h : client.transactionReceipt k (lib.hexToHash hashHex) with
  | error e => simp [checkTransactionReceipt, h]
  | ok r => simp [checkTransactionReceipt, h, intOfUint64_eq_one_iff]

/-! ## Reading the trace of a run -/

theorem submitted_append (a b : List Event) : submitted (a ++ b) = submitted a ++ submitted b := by
  induction a with
  | nil => rfl
  | cons e a ih => cases e <;> simp [submitted, ih]

theorem receiptQueries_append (a b : List Event) :
    receiptQueries (a ++ b) = receiptQueries a ++ receiptQueries b := by
  induction a with
  | nil => rfl
  | cons e a ih => cases e <;> simp [receiptQueries, ih]

theorem stdout_append (a b : List Event) : stdout (a ++ b) = stdout a ++ stdout b := by
  induction a with
  | nil => rfl
  | cons e a ih => cases e <;> simp [stdout, ih]

theorem assembled_append (a b : List Event) : assembled (a ++ b) = assembled a ++ assembled b := by
  induction a with
  | nil => rfl
  | cons e a ih => cases e <;> simp [assembled, ih]

theorem attempted_append (a b : List Event) : attempted (a ++ b) = attempted a ++ attempted b := by
  simp [attempted]

theorem LoadConfiguration_events (lib : Lib) (w : World) (file : String) :
    attempted (LoadConfiguration lib w file).2 = [] ∧
    submitted (LoadConfiguration lib w file).2 = [] ∧
    receiptQueries (LoadConfiguration lib w file).2 = [] ∧
    assembled (LoadConfiguration lib w file).2 = [] := by
  unfold LoadConfiguration
  cases w.openFile file <;> simp [attempted, Event.step, submitted, receiptQueries, assembled]

/-! ## The poll loop -/

theorem pollLoop_quiet (lib : Lib) (client : Client) (hashHex : String) (fuel k : Nat) :
    attempted (pollLoop lib client hashHex fuel k).1 = [] ∧
    submitted (pollLoop lib client hashHex fuel k).1 = [] ∧
    assembled (pollLoop lib client hashHex fuel k).1 = [] := by
  induction fuel generalizing k with
  | zero => simp [pollLoop, attempted, submitted, assembled]
  | succ fuel ih =>
    have := ih (k + 1)
    unfold pollLoop
    simp only []
    split
    · simp [attempted, Event.step, submitted, assembled]
    · simp_all [attempted, Event.step, submitted, assembled]

theorem pollLoop_not_fatal (lib : Lib) (client : Client) (hashHex : String) (fuel k : Nat)
    (s : Step) : (pollLoop lib client hashHex fuel k).2 ≠ .fatal s := by
  induction fuel generalizing k with
  | zero => simp [pollLoop]
  | succ fuel ih =>
    have := ih (k + 1)
    unfold pollLoop
    simp only []
    split
    · simp
    · simpa using this

theorem pollLoop_confirmed_iff (lib : Lib) (client : Client) (hashHex : String)
    (fuel k n : Nat) :
    (pollLoop lib client hashHex fuel k).2 = .confirmed n ↔
      k < n ∧ n ≤ k + fuel ∧ checkTransactionReceipt lib client (n - 1) hashHex = 1 ∧
      ∀ i, k ≤ i → i < n - 1 → checkTransactionReceipt lib client i hashHex ≠ 1 := by
  induction fuel generalizing k with
  | zero =>
    simp only [pollLoop]
    constructor
    · intro h; cases h
    · rintro ⟨h1, h2, -⟩; omega
  | succ fuel ih =>
    have ih1 := ih (k + 1)
    unfold pollLoop
    simp only []
    by_cases hc : checkTransactionReceipt lib client k hashHex = 1
    · simp only [hc, if_true]
      constructor
      · intro h
        have hn : n = k + 1 := by cases h; rfl
        subst hn
        refine ⟨by omega, by omega, by simpa using hc, ?_⟩
        intro i hi1 hi2
        omega
      · rintro ⟨h1, -, -, h4⟩
        have hn : n = k + 1 := by
          by_contra hne
          exact h4 k (le_refl k) (by omega) hc
        rw [hn]
    · simp only [hc, if_false]
      rw [ih1]
      constructor
      · rintro ⟨h1, h2, h3, h4⟩
        refine ⟨by omega, by omega, h3, ?_⟩
        intro i hi1 hi2
        by_cases hik : i = k
        · subst hik; exact hc
        · exact h4 i (by omega) hi2
      · rintro ⟨h1, h2, h3, h4⟩
        have hk : k + 1 < n := by
          by_contra hle
          have hn : n = k + 1 := by omega
          subst hn
          exact hc (by simpa using h3)
        exact ⟨hk, by omega, h3, fun i hi1 hi2 => h4 i (by omega) hi2⟩

theorem pollLoop_stdout (lib : Lib) (client : Client) (hashHex : String) (fuel k n : Nat)
    (h : (pollLoop lib client hashHex fuel k).2 = .confirmed n) :
    stdout (pollLoop lib client hashHex fuel k).1 =
      (List.range' k (n - k)).map
        (fun i => "tx status: " ++ toString (checkTransactionReceipt lib client i hashHex)) ++
      ["tx confirmed!"] := by
  induction fuel generalizing k with
  | zero => simp [pollLoop] at h
  | succ fuel ih =>
    have hlt := ((pollLoop_confirmed_iff lib client hashHex (fuel + 1) k n).1 h).1
    have ih1 := ih (k + 1)
    unfold pollLoop at h ⊢
    simp only [] at h ⊢
    by_cases hc : checkTransactionReceipt lib client k hashHex = 1
    · simp only [hc, if_true] at h ⊢
      have hn : n = k + 1 := by cases h; rfl
      subst hn
      simp [stdout, hc]
    · simp only [hc, if_false] at h ⊢
      have hk := ((pollLoop_confirmed_iff lib client hashHex fuel (k + 1) n).1 h).1
      have e : n - k = (n - (k + 1)) + 1 := by omega
      rw [e, List.range'_succ]
      simp [stdout, stdout_append, ih1 h]

theorem pollLoop_pending (lib : Lib) (client : Client) (hashHex : String)
    (h : ∀ k, checkTransactionReceipt lib client k hashHex = 0) (fuel k : Nat) :
    (pollLoop lib client hashHex fuel k).2 = .pending ∧
    stdout (pollLoop lib client hashHex fuel k).1 = List.replicate fuel "tx status: 0" ∧
    receiptQueries (pollLoop lib client hashHex fuel k).1 =
      List.replicate fuel (lib.hexToHash hashHex) := by
  induction fuel generalizing k with
  | zero => simp [pollLoop, stdout, receiptQueries]
  | succ fuel ih =>
    obtain ⟨h1, h2, h3⟩ := ih (k + 1)
    unfold pollLoop
    simp only [h k]
    refine ⟨by simpa using h1, ?_, ?_⟩
    · simp [stdout, h2, List.replicate_succ]
      rfl
    · simp [receiptQueries, h3, List.replicate_succ]

/-! ## The shape of a run -/

theorem firstFailingStep_none (lib : Lib) (w : World) (h : firstFailingStep lib w = none) :
    ∃ client gasPrice privateKey fromAddress third chainID nonce abiP data sig,
      w.dial (LoadConfiguration lib w "config.json").1.InfuraApiUrl = .ok client ∧
      client.suggestGasPrice = .ok gasPrice ∧
      GetKey lib (LoadConfiguration lib w "config.json").1.WalletPrivateKey =
        .ok (privateKey, fromAddress, third) ∧
      client.networkID = .ok chainID ∧
      client.nonceAt fromAddress = .ok nonce ∧
      lib.abiJSON (LoadConfiguration lib w "config.json").1.ABI = .ok abiP ∧
      lib.pack abiP "mint" = .ok data ∧
      lib.sign (assembleTx lib (LoadConfiguration lib w "config.json").1 nonce gasPrice data)
        chainID privateKey = .ok sig ∧
      client.sendTransaction
        { assembleTx lib (LoadConfiguration lib w "config.json").1 nonce gasPrice data with
          V := sig.V, R := sig.R, S := sig.S } = .ok () := by
  unfold firstFailingStep at h
  simp only [] at h
  repeat' split at h
  all_goals first
    | (cases h; done)
    | exact ⟨_, _, _, _, _, _, _, _, _, _, ‹_›, ‹_›, ‹_›, ‹_›, ‹_›, ‹_›, ‹_›, ‹_›, ‹_›⟩

theorem main_ok (lib : Lib) (w : World) (fuel : Nat) (client : Client) (gasPrice : Int)
    (privateKey : PrivateKey) (fromAddress : Address) (third : Option String) (chainID : Int)
    (nonce : Uint64) (abiP : ABI) (data : Bytes) (sig : Signature)
    (hdial : w.dial (LoadConfiguration lib w "config.json").1.InfuraApiUrl = .ok client)
    (hprice : client.suggestGasPrice = .ok gasPrice)
    (hkey : GetKey lib (LoadConfiguration lib w "config.json").1.WalletPrivateKey =
      .ok (privateKey, fromAddress, third))
    (hchain : client.networkID = .ok chainID)
    (hnonce : client.nonceAt fromAddress = .ok nonce)
    (habi : lib.abiJSON (LoadConfiguration lib w "config.json").1.ABI = .ok abiP)
    (hpack : lib.pack abiP "mint" = .ok data)
    (hsign : lib.sign (assembleTx lib (LoadConfiguration lib w "config.json").1 nonce gasPrice
      data) chainID privateKey = .ok sig)
    (hsend : client.sendTransaction
      { assembleTx lib (LoadConfiguration lib w "config.json").1 nonce gasPrice data with
        V := sig.V, R := sig.R, S := sig.S } = .ok ()) :
    main lib w fuel =
      ⟨(LoadConfiguration lib w "config.json").2 ++
        [Event.dial (LoadConfiguration lib w "config.json").1.InfuraApiUrl,
         Event.suggestGasPrice,
         Event.getKey (LoadConfiguration lib w "config.json").1.WalletPrivateKey,
         Event.println ("Address: " ++ lib.addressString fromAddress),
         Event.networkID,
         Event.nonceAt fromAddress,
         Event.abiJSON (LoadConfiguration lib w "config.json").1.ABI,
         Event.pack "mint",
         Event.signTx (assembleTx lib (LoadConfiguration lib w "config.json").1 nonce gasPrice
           data) chainID privateKey,
         Event.sendTransaction
           { assembleTx lib (LoadConfiguration lib w "config.json").1 nonce gasPrice data with
             V := sig.V, R := sig.R, S := sig.S },
         Event.println ("tx sent: " ++ lib.hashHex (lib.txHash
           { assembleTx lib (LoadConfiguration lib w "config.json").1 nonce gasPrice data with
             V := sig.V, R := sig.R, S := sig.S }))] ++
        (pollLoop lib client (lib.hashHex (lib.txHash
           { assembleTx lib (LoadConfiguration lib w "config.json").1 nonce gasPrice data with
             V := sig.V, R := sig.R, S := sig.S })) fuel 0).1,
       (pollLoop lib client (lib.hashHex (lib.txHash
           { assembleTx lib (LoadConfiguration lib w "config.json").1 nonce gasPrice data with
             V := sig.V, R := sig.R, S := sig.S })) fuel 0).2⟩ := by
  unfold main
  simp only [hdial, hprice, hkey, hchain, hnonce, habi, hpack, hsign, hsend, List.append_assoc,
    List.cons_append, List.nil_append]

theorem main_fatal (lib : Lib) (w : World) (fuel : Nat) (s : Step)
    (h : firstFailingStep lib w = some s) :
    (main lib w fuel).outcome = .fatal s ∧
    attempted (main lib w fuel).trace = Step.order.take (s.index + 1) ∧
    (∃ msg, (main lib w fuel).trace.getLast? = some (.logFatal msg)) ∧
    (s ≠ .broadcast → submitted (main lib w fuel).trace = []) ∧
    (s = .broadcast → (submitted (main lib w fuel).trace).length = 1) ∧
    receiptQueries (main lib w fuel).trace = [] := by
  obtain ⟨ha, hs, hr, -⟩ := LoadConfiguration_events lib w "config.json"
  unfold firstFailingStep at h
  unfold main
  simp only [] at h ⊢
  repeat' split at h
  all_goals first
    | (cases h; done)
    | (cases h
       simp_all [attempted_append, submitted_append, receiptQueries_append]
       simp [attempted, Event.step, Step.order, Step.index, submitted, receiptQueries])

/-! ## The receipt status code -/

/-- C1: for every transaction hash and every answer of the node to the receipt
query, `checkTransactionReceipt` returns -1 when the query fails, 0 when the
query returns a receipt with status 0, and 1 when it returns a receipt with
status 1. -/
theorem checkTransactionReceipt_status (lib : Lib) (client : Client) (k : Nat)
    (_txHash : String) :
    (∀ err, client.transactionReceipt k (lib.hexToHash _txHash) = .error err →
      checkTransactionReceipt lib client k _txHash = -1) ∧
    (∀ r, client.transactionReceipt k (lib.hexToHash _txHash) = .ok r → r.Status = 0 →
      checkTransactionReceipt lib client k _txHash = 0) ∧
    (∀ r, client.transactionReceipt k (lib.hexToHash _txHash) = .ok r → r.Status = 1 →
      checkTransactionReceipt lib client k _txHash = 1) := by
  refine ⟨?_, ?_, ?_⟩
  · intro err h
    simp [checkTransactionReceipt, h]
  · intro r h hr
    simp [checkTransactionReceipt, h, hr, intOfUint64_zero]
  · intro r h hr
    exact (checkTransactionReceipt_eq_one_iff lib client k _txHash).2 ⟨r, h, hr⟩

theorem checkTransactionReceipt_status_witness :
    checkTransactionReceipt demoLib demoClient 0 "0xab" = -1 ∧
    checkTransactionReceipt demoLib demoClient 1 "0xab" = 0 ∧
    checkTransactionReceipt demoLib demoClient 2 "0xab" = 1 :=
  ⟨(checkTransactionReceipt_status demoLib demoClient 0 "0xab").1 "not found" rfl,
   (checkTransactionReceipt_status demoLib demoClient 1 "0xab").2.1 ⟨0⟩ rfl rfl,
   (checkTransactionReceipt_status demoLib demoClient 2 "0xab").2.2 ⟨1⟩ rfl rfl⟩

/-- C8, as stated, fails: a receipt whose status field is 2 makes
`checkTransactionReceipt` return 2, which is none of -1, 0 and 1. -/
theorem checkTransactionReceipt_returns_two :
    checkTransactionReceipt demoLib statusTwoClient 0 "0xab" = 2 ∧
    ¬ (checkTransactionReceipt demoLib statusTwoClient 0 "0xab" = -1 ∨
       checkTransactionReceipt demoLib statusTwoClient 0 "0xab" = 0 ∨
       checkTransactionReceipt demoLib statusTwoClient 0 "0xab" = 1) := by
  decide

/-- C8, amended: the status code is -1 when the query fails and otherwise the
status field of the receipt converted to `int`; it is one of -1, 0 and 1
whenever the receipt, if there is one, has status 0 or 1. -/
theorem checkTransactionReceipt_range (lib : Lib) (client : Client) (k : Nat)
    (_txHash : String) :
    ((∃ err, client.transactionReceipt k (lib.hexToHash _txHash) = .error err ∧
        checkTransactionReceipt lib client k _txHash = -1) ∨
      (∃ r, client.transactionReceipt k (lib.hexToHash _txHash) = .ok r ∧
        checkTransactionReceipt lib client k _txHash = intOfUint64 r.Status)) ∧
    ((∀ r, client.transactionReceipt k (lib.hexToHash _txHash) = .ok r →
        r.Status = 0 ∨ r.Status = 1) →
      checkTransactionReceipt lib client k _txHash = -1 ∨
      checkTransactionReceipt lib client k _txHash = 0 ∨
      checkTransactionReceipt lib client k _txHash = 1) := by
  cases h : client.transactionReceipt k (lib.hexToHash _txHash) with
  | error e => simp [checkTransactionReceipt, h]
  | ok r =>
    have hc : checkTransactionReceipt lib client k _txHash = intOfUint64 r.Status := by
      simp [checkTransactionReceipt, h]
    refine ⟨Or.inr ⟨r, rfl, hc⟩, ?_⟩
    intro hr
    rcases hr r rfl with h0 | h1
    · right; left
      rw [hc, h0, intOfUint64_zero]
    · right; right
      rw [hc, h1]
      exact (intOfUint64_eq_one_iff 1).2 rfl

theorem checkTransactionReceipt_range_witness :
    checkTransactionReceipt demoLib demoClient 1 "0xab" = -1 ∨
    checkTransactionReceipt demoLib demoClient 1 "0xab" = 0 ∨
    checkTransactionReceipt demoLib demoClient 1 "0xab" = 1 :=
  (checkTransactionReceipt_range demoLib demoClient 1 "0xab").2
    (fun r h => Or.inl (by cases h; rfl))

/-! ## The confirmation poll loop -/

/-- C2: the poll loop is left after `n` iterations exactly when the `n`-th
receipt query returned a receipt with status 1 and none of the `n - 1` queries
before it did (and `n` iterations are observed); so it is left only on a
receipt with status 1, and at the first one.  A run of `main` that ends
confirmed after `n` iterations has asked the node `n` times for the receipt of
the submitted transaction, and the last of these answers was the first with
status 1. -/
theorem pollLoop_exits_at_first_success (lib : Lib) (fuel n : Nat) :
    (∀ (client : Client) (hashHex : String),
      (pollLoop lib client hashHex fuel 0).2 = .confirmed n ↔
        0 < n ∧ n ≤ fuel ∧
        (∃ r, client.transactionReceipt (n - 1) (lib.hexToHash hashHex) = .ok r ∧
          r.Status = 1) ∧
        ∀ i, i < n - 1 →
          ¬ ∃ r, client.transactionReceipt i (lib.hexToHash hashHex) = .ok r ∧ r.Status = 1) ∧
    (∀ w : World, (main lib w fuel).outcome = .confirmed n →
      ∃ client signedTx,
        w.dial (LoadConfiguration lib w "config.json").1.InfuraApiUrl = .ok client ∧
        submitted (main lib w fuel).trace = [signedTx] ∧
        0 < n ∧
        (∃ r, client.transactionReceipt (n - 1)
            (lib.hexToHash (lib.hashHex (lib.txHash signedTx))) = .ok r ∧ r.Status = 1) ∧
        ∀ i, i < n - 1 →
          ¬ ∃ r, client.transactionReceipt i
            (lib.hexToHash (lib.hashHex (lib.txHash signedTx))) = .ok r ∧ r.Status = 1) := by
  have key : ∀ (client : Client) (hashHex : String),
      (pollLoop lib client hashHex fuel 0).2 = .confirmed n ↔
        0 < n ∧ n ≤ fuel ∧
        (∃ r, client.transactionReceipt (n - 1) (lib.hexToHash hashHex) = .ok r ∧
          r.Status = 1) ∧
        ∀ i, i < n - 1 →
          ¬ ∃ r, client.transactionReceipt i (lib.hexToHash hashHex) = .ok r ∧
            r.Status = 1 := by
    intro client hashHex
    rw [pollLoop_confirmed_iff, checkTransactionReceipt_eq_one_iff]
    constructor
    · rintro ⟨h1, h2, h3, h4⟩
      refine ⟨h1, by omega, h3, fun i hi => ?_⟩
      rw [← checkTransactionReceipt_eq_one_iff]
      exact h4 i (Nat.zero_le i) hi
    · rintro ⟨h1, h2, h3, h4⟩
      refine ⟨h1, by omega, h3, fun i _ hi => ?_⟩
      rw [Ne, checkTransactionReceipt_eq_one_iff]
      exact h4 i hi
  refine ⟨key, ?_⟩
  intro w hw
  cases hf : firstFailingStep lib w with
  | some s =>
    rw [(main_fatal lib w fuel s hf).1] at hw
    cases hw
  | none =>
    obtain ⟨client, gasPrice, privateKey, fromAddress, third, chainID, nonce, abiP, data, sig,
      hdial, hprice, hkey, hchain, hnonce, habi, hpack, hsign, hsend⟩ :=
      firstFailingStep_none lib w hf
    have hm := main_ok lib w fuel client gasPrice privateKey fromAddress third chainID nonce abiP
      data sig hdial hprice hkey hchain hnonce habi hpack hsign hsend
    rw [hm] at hw ⊢
    obtain ⟨-, hs, -, -⟩ := LoadConfiguration_events lib w "config.json"
    obtain ⟨-, hq, -⟩ := pollLoop_quiet lib client (lib.hashHex (lib.txHash
      { assembleTx lib (LoadConfiguration lib w "config.json").1 nonce gasPrice data with
        V := sig.V, R := sig.R, S := sig.S })) fuel 0
    obtain ⟨h1, -, h3, h4⟩ := (key client _).1 hw
    refine ⟨client, _, hdial, ?_, h1, h3, h4⟩
    simp [submitted_append, hs, hq, submitted]

theorem pollLoop_exits_at_first_success_witness :
    (pollLoop demoLib demoClient "0xab" 5 0).2 = .confirmed 3 :=
  ((pollLoop_exits_at_first_success demoLib 5 3).1 demoClient "0xab").2
    ⟨by decide, by decide, ⟨⟨1⟩, rfl, rfl⟩, fun i hi => by
      have hi2 : i = 0 ∨ i = 1 := by omega
      rcases hi2 with h | h
      · subst h
        rintro ⟨r, hr, -⟩
        cases hr
      · subst h
        rintro ⟨r, hr, h1⟩
        cases hr
        cases h1⟩

/-- C3: when the nine steps up to the broadcast succeed and every receipt query
returns a receipt with status 0, the poll loop is never left: for every `n`,
the run observed for `n` iterations is still pending, has made `n` receipt
queries, and has printed, after what was printed up to the broadcast, `n` lines
`tx status: 0` and no line `tx confirmed!`. -/
theorem main_polls_forever_on_status_zero (lib : Lib) (w : World)
    (hsent : firstFailingStep lib w = none)
    (hzero : ∀ client, w.dial (LoadConfiguration lib w "config.json").1.InfuraApiUrl = .ok client →
      ∀ k h, ∃ r, client.transactionReceipt k h = .ok r ∧ r.Status = 0)
    (n : Nat) :
    (main lib w n).outcome = .pending ∧
    (∀ m, (main lib w n).outcome ≠ .confirmed m) ∧
    (receiptQueries (main lib w n).trace).length = n ∧
    stdout (main lib w n).trace = stdout (main lib w 0).trace ++ List.replicate n "tx status: 0" ∧
    "tx confirmed!" ∉ List.replicate n "tx status: 0" := by
  obtain ⟨client, gasPrice, privateKey, fromAddress, third, chainID, nonce, abiP, data, sig,
    hdial, hprice, hkey, hchain, hnonce, habi, hpack, hsign, hsend⟩ :=
    firstFailingStep_none lib w hsent
  have hm := fun fuel => main_ok lib w fuel client gasPrice privateKey fromAddress third chainID
    nonce abiP data sig hdial hprice hkey hchain hnonce habi hpack hsign hsend
  have hcheck : ∀ k, checkTransactionReceipt lib client k (lib.hashHex (lib.txHash
      { assembleTx lib (LoadConfiguration lib w "config.json").1 nonce gasPrice data with
        V := sig.V, R := sig.R, S := sig.S })) = 0 := by
    intro k
    obtain ⟨r, hr, h0⟩ := hzero client hdial k (lib.hexToHash (lib.hashHex (lib.txHash
      { assembleTx lib (LoadConfiguration lib w "config.json").1 nonce gasPrice data with
        V := sig.V, R := sig.R, S := sig.S })))
    simp [checkTransactionReceipt, hr, h0, intOfUint64_zero]
  obtain ⟨p1, p2, p3⟩ := pollLoop_pending lib client _ hcheck n 0
  obtain ⟨-, -, hr, -⟩ := LoadConfiguration_events lib w "config.json"
  have hout : (main lib w n).outcome = .pending := by rw [hm n]; exact p1
  refine ⟨hout, ?_, ?_, ?_, ?_⟩
  · intro m hc
    rw [hout] at hc
    cases hc
  · rw [hm n]
    simp [receiptQueries_append, hr, p3, receiptQueries]
  · rw [hm n, hm 0]
    simp [stdout_append, p2, pollLoop, stdout]
  · intro hmem
    have := List.eq_of_mem_replicate hmem
    revert this
    decide

theorem main_polls_forever_on_status_zero_witness :
    (main demoLib revertedWorld 4).outcome = .pending ∧
    (∀ m, (main demoLib revertedWorld 4).outcome ≠ .confirmed m) ∧
    (receiptQueries (main demoLib revertedWorld 4).trace).length = 4 ∧
    stdout (main demoLib revertedWorld 4).trace =
      stdout (main demoLib revertedWorld 0).trace ++ List.replicate 4 "tx status: 0" ∧
    "tx confirmed!" ∉ List.replicate 4 "tx status: 0" :=
  main_polls_forever_on_status_zero demoLib revertedWorld (by decide)
    (fun client hc k h => by
      have e : client = revertedClient := by
        simp only [revertedWorld] at hc
        cases hc
        rfl
      subst e
      exact ⟨⟨0⟩, rfl, rfl⟩) 4

/-! ## Fatal errors and the single submission -/

/-- C6: when one of the steps connect, gas-price query, key derivation,
chain-id query, nonce query, ABI parse, call-data encoding, signing and
broadcast fails, with `s` the first that does, the run ends fatally in `s`: the
steps it attempts are those up to `s` in program order, each once, and its last
event is the call of `log.Fatal`.  No transaction is submitted when `s` comes
before the broadcast; when `s` is the broadcast the transaction was submitted
once and not again; and no receipt is queried in either case. -/
theorem main_fatal_at_first_failure (lib : Lib) (w : World) (fuel : Nat) (s : Step)
    (h : firstFailingStep lib w = some s) :
    (main lib w fuel).outcome = .fatal s ∧
    attempted (main lib w fuel).trace = Step.order.take (s.index + 1) ∧
    (∃ msg, (main lib w fuel).trace.getLast? = some (.logFatal msg)) ∧
    (s ≠ .broadcast → submitted (main lib w fuel).trace = []) ∧
    (s = .broadcast → (submitted (main lib w fuel).trace).length = 1) ∧
    receiptQueries (main lib w fuel).trace = [] :=
  main_fatal lib w fuel s h

theorem main_fatal_at_first_failure_witness :
    (main demoLib rejectingWorld 7).outcome = .fatal .broadcast ∧
    attempted (main demoLib rejectingWorld 7).trace = Step.order.take (Step.broadcast.index + 1) ∧
    (∃ msg, (main demoLib rejectingWorld 7).trace.getLast? = some (.logFatal msg)) ∧
    (Step.broadcast ≠ .broadcast → submitted (main demoLib rejectingWorld 7).trace = []) ∧
    (Step.broadcast = .broadcast → (submitted (main demoLib rejectingWorld 7).trace).length = 1) ∧
    receiptQueries (main demoLib rejectingWorld 7).trace = [] :=
  main_fatal_at_first_failure demoLib rejectingWorld 7 .broadcast (by decide)

theorem suffix_after_query (a l pre post : List Event) (h : Hash)
    (ha : receiptQueries a = [])
    (e : a ++ l = pre ++ Event.transactionReceipt h :: post) :
    ∃ mid, l = mid ++ Event.transactionReceipt h :: post := by
  induction a generalizing pre with
  | nil => exact ⟨pre, by simpa using e⟩
  | cons x a ih =>
    cases pre with
    | nil =>
      simp only [List.cons_append, List.nil_append, List.cons.injEq] at e
      obtain ⟨hx, -⟩ := e
      subst hx
      simp [receiptQueries] at ha
    | cons p pre =>
      simp only [List.cons_append, List.cons.injEq] at e
      obtain ⟨hx, e⟩ := e
      subst hx
      have ha2 : receiptQueries a = [] := by
        cases x <;> simp_all [receiptQueries]
      exact ih pre ha2 e

/-- C5: in every run the transaction is submitted to the node at most once;
it is submitted exactly once when no step before the broadcast fails (connect,
gas-price, chain-id and nonce queries, key derivation, ABI parse and encoding,
signing); and nothing is submitted after a receipt query, so no iteration of
the poll loop submits again. -/
theorem main_submits_at_most_once (lib : Lib) (w : World) (fuel : Nat) :
    (submitted (main lib w fuel).trace).length ≤ 1 ∧
    ((∀ s, firstFailingStep lib w = some s → s = .broadcast) →
      (submitted (main lib w fuel).trace).length = 1) ∧
    (∀ pre post h, (main lib w fuel).trace = pre ++ Event.transactionReceipt h :: post →
      submitted post = []) := by
  cases hf : firstFailingStep lib w with
  | some s =>
    obtain ⟨-, -, -, h4, h5, h6⟩ := main_fatal lib w fuel s hf
    refine ⟨?_, ?_, ?_⟩
    · by_cases hs : s = .broadcast
      · exact le_of_eq (h5 hs)
      · simp [h4 hs]
    · intro hall
      exact h5 (hall s rfl)
    · intro pre post h e
      rw [e, receiptQueries_append] at h6
      simp [receiptQueries] at h6
  | none =>
    obtain ⟨client, gasPrice, privateKey, fromAddress, third, chainID, nonce, abiP, data, sig,
      hdial, hprice, hkey, hchain, hnonce, habi, hpack, hsign, hsend⟩ :=
      firstFailingStep_none lib w hf
    have hm := main_ok lib w fuel client gasPrice privateKey fromAddress third chainID nonce abiP
      data sig hdial hprice hkey hchain hnonce habi hpack hsign hsend
    obtain ⟨-, hs, hr, -⟩ := LoadConfiguration_events lib w "config.json"
    obtain ⟨-, hq, -⟩ := pollLoop_quiet lib client (lib.hashHex (lib.txHash
      { assembleTx lib (LoadConfiguration lib w "config.json").1 nonce gasPrice data with
        V := sig.V, R := sig.R, S := sig.S })) fuel 0
    rw [hm]
    refine ⟨?_, ?_, ?_⟩
    · simp [submitted_append, hs, hq, submitted]
    · intro _
      simp [submitted_append, hs, hq, submitted]
    · intro pre post h e
      obtain ⟨mid, hmid⟩ := suffix_after_query _ _ pre post h
        (by simp [receiptQueries_append, hr, receiptQueries]) e
      rw [hmid, submitted_append] at hq
      have := (List.append_eq_nil.1 hq).2
      simpa [submitted] using this

theorem main_submits_at_most_once_witness :
    (submitted (main demoLib demoWorld 5).trace).length = 1 :=
  (main_submits_at_most_once demoLib demoWorld 5).2.1 (fun s h => by
    have hn : firstFailingStep demoLib demoWorld = none := by decide
    rw [hn] at h
    cases h)

/-! ## The assembled transaction -/

theorem bigUint64_of_nonneg (x : GoInt64) (h : 0 ≤ x.val) : ((bigUint64 x.val).val : Int) = x.val := by
  have h2 := x.property.2
  unfold bigUint64
  simp only []
  have hlt : x.val.natAbs < 2 ^ 64 := by omega
  rw [Nat.mod_eq_of_lt hlt]
  omega

/-- C4: for every configuration with a non-negative `gas_limit`, when the run
gets as far as encoding — the node is reached, suggests gas price `p` and
reports nonce `n` for the sender, and the `mint` call encodes to `d` — the one
transaction `main` hands to the signer has `Nonce = n`, `To` the address decoded
from `contract_address`, `Value` the configured value, `Gas` the configured
`gas_limit`, `GasPrice = p` and `Data = d`. -/
theorem main_assembles_tx (lib : Lib) (w : World) (fuel : Nat) (client : Client) (p : Int)
    (privateKey : PrivateKey) (fromAddress : Address) (third : Option String) (chainID : Int)
    (n : Uint64) (abiP : ABI) (d : Bytes)
    (hgas : 0 ≤ (LoadConfiguration lib w "config.json").1.GasLimit.val)
    (hdial : w.dial (LoadConfiguration lib w "config.json").1.InfuraApiUrl = .ok client)
    (hprice : client.suggestGasPrice = .ok p)
    (hkey : GetKey lib (LoadConfiguration lib w "config.json").1.WalletPrivateKey =
      .ok (privateKey, fromAddress, third))
    (hchain : client.networkID = .ok chainID)
    (hnonce : client.nonceAt fromAddress = .ok n)
    (habi : lib.abiJSON (LoadConfiguration lib w "config.json").1.ABI = .ok abiP)
    (hpack : lib.pack abiP "mint" = .ok d) :
    ∃ tx, assembled (main lib w fuel).trace = [tx] ∧
      tx.Nonce = n ∧
      tx.To = some (lib.hexToAddress (LoadConfiguration lib w "config.json").1.ContractAddress) ∧
      tx.Value = (LoadConfiguration lib w "config.json").1.Value.val ∧
      (tx.Gas.val : Int) = (LoadConfiguration lib w "config.json").1.GasLimit.val ∧
      tx.GasPrice = p ∧
      tx.Data = d := by
  refine ⟨assembleTx lib (LoadConfiguration lib w "config.json").1 n p d, ?_, rfl, rfl, rfl,
    bigUint64_of_nonneg _ hgas, rfl, rfl⟩
  obtain ⟨-, -, -, ha⟩ := LoadConfiguration_events lib w "config.json"
  unfold main
  simp only [hdial, hprice, hkey, hchain, hnonce, habi, hpack]
  split
  · simp [assembled_append, ha, assembled]
  · split
    · simp [assembled_append, ha, assembled]
    · simp [assembled_append, ha, assembled, (pollLoop_quiet lib client _ fuel 0).2.2]

theorem main_assembles_tx_witness :
    ∃ tx, assembled (main demoLib demoWorld 3).trace = [tx] ∧
      tx.Nonce = 5 ∧
      tx.To = some (demoLib.hexToAddress "0xc0") ∧
      tx.Value = 0 ∧
      (tx.Gas.val : Int) = 21000 ∧
      tx.GasPrice = 1 ∧
      tx.Data = [0x12, 0x49, 0xc5, 0x8b] :=
  main_assembles_tx demoLib demoWorld 3 demoClient 1 ⟨⟨1, 2⟩, 3⟩ ⟨[1, 2]⟩ none 1 5 ⟨["mint"]⟩
    [0x12, 0x49, 0xc5, 0x8b] (by decide) rfl rfl rfl rfl rfl rfl rfl

/-! ## Loading the configuration -/

/-- C7: for every path that cannot be opened, `LoadConfiguration` returns the
zero-valued `Config` — empty `infura_api_url`, `wallet_private_key`,
`contract_address` and `abi`, and `value` and `gas_limit` equal to 0 — after
printing the error, and does not end the run: when the path is the one `main`
loads, the run goes on to dial the empty URL. -/
theorem LoadConfiguration_unopenable (lib : Lib) (w : World) (file err : String) (fuel : Nat)
    (h : w.openFile file = .error err) :
    LoadConfiguration lib w file = (Config.zero, [.openFile file, .println err]) ∧
    (LoadConfiguration lib w file).1.InfuraApiUrl = "" ∧
    (LoadConfiguration lib w file).1.WalletPrivateKey = "" ∧
    (LoadConfiguration lib w file).1.ContractAddress = "" ∧
    (LoadConfiguration lib w file).1.ABI = "" ∧
    (LoadConfiguration lib w file).1.Value.val = 0 ∧
    (LoadConfiguration lib w file).1.GasLimit.val = 0 ∧
    (file = "config.json" →
      ∃ rest, (main lib w fuel).trace =
        [.openFile "config.json", .println err, .dial ""] ++ rest) := by
  have hl : LoadConfiguration lib w file = (Config.zero, [.openFile file, .println err]) := by
    simp [LoadConfiguration, h]
  refine ⟨hl, ?_, ?_, ?_, ?_, ?_, ?_, ?_⟩
  · rw [hl]; rfl
  · rw [hl]; rfl
  · rw [hl]; rfl
  · rw [hl]; rfl
  · rw [hl]; rfl
  · rw [hl]; rfl
  · intro hf
    subst hf
    unfold main
    simp only [hl, Config.zero, List.append_assoc, List.cons_append, List.nil_append]
    repeat' split
    all_goals exact ⟨_, rfl⟩

theorem LoadConfiguration_unopenable_witness :
    LoadConfiguration demoLib noConfigWorld "config.json" =
      (Config.zero, [.openFile "config.json",
        .println "open config.json: no such file or directory"]) ∧
    ∃ rest, (main demoLib noConfigWorld 2).trace =
      [.openFile "config.json", .println "open config.json: no such file or directory",
        .dial ""] ++ rest :=
  have h := LoadConfiguration_unopenable demoLib noConfigWorld "config.json"
    "open config.json: no such file or directory" 2 rfl
  ⟨h.1, h.2.2.2.2.2.2.2 rfl⟩

/-! ## Key derivation -/

/-- C10: `GetKey` is deterministic: whenever it returns for a key string, any
two results for that string are the same key pair with the same address; the
key pair is the one `crypto.HexToECDSA` decodes from the string and the address
is the one `crypto.PubkeyToAddress` derives from its public key. -/
theorem GetKey_deterministic (lib : Lib) (key : String)
    (r1 r2 : PrivateKey × Address × Option String)
    (h1 : GetKey lib key = .ok r1) (h2 : GetKey lib key = .ok r2) :
    r1 = r2 ∧ r1.1 = r2.1 ∧ r1.2.1 = r2.2.1 ∧
    lib.hexToECDSA key = .ok r1.1 ∧
    r1.2.1 = lib.pubkeyToAddress r1.1.PublicKey := by
  have e : r1 = r2 := by
    rw [h1] at h2
    cases h2
    rfl
  subst e
  refine ⟨rfl, rfl, rfl, ?_, ?_⟩
  · unfold GetKey at h1
    cases hk : lib.hexToECDSA key with
    | error err => simp [hk] at h1
    | ok priv =>
      simp only [hk, PrivateKey.Public] at h1
      cases h1
      rfl
  · unfold GetKey at h1
    cases hk : lib.hexToECDSA key with
    | error err => simp [hk] at h1
    | ok priv =>
      simp only [hk, PrivateKey.Public] at h1
      cases h1
      rfl

theorem GetKey_deterministic_witness :
    ((⟨⟨1, 2⟩, 3⟩, ⟨[1, 2]⟩, none) : PrivateKey × Address × Option String).2.1 =
      demoLib.pubkeyToAddress ⟨1, 2⟩ :=
  (GetKey_deterministic demoLib (String.mk (List.replicate 64 'a'))
    (⟨⟨1, 2⟩, 3⟩, ⟨[1, 2]⟩, none) (⟨⟨1, 2⟩, 3⟩, ⟨[1, 2]⟩, none) rfl rfl).2.2.2.2

/-! ## Console output -/

theorem LoadConfiguration_stdout (lib : Lib) (w : World)
    (hempty : ∀ priv, lib.hexToECDSA "" ≠ .ok priv)
    (r : PrivateKey × Address × Option String)
    (hkey : GetKey lib (LoadConfiguration lib w "config.json").1.WalletPrivateKey = .ok r) :
    stdout (LoadConfiguration lib w "config.json").2 = [] := by
  unfold LoadConfiguration at hkey ⊢
  cases ho : w.openFile "config.json" with
  | ok content => simp [stdout]
  | error err =>
    exfalso
    simp only [ho, Config.zero] at hkey
    unfold GetKey at hkey
    cases hk : lib.hexToECDSA "" with
    | error e => simp [hk] at hkey
    | ok priv => exact hempty priv hk

/-- C9: the console output of every run that reaches confirmation, after `n`
poll iterations, is: the line `Address: ` with the sender address, the line
`tx sent: ` with the hash of the submitted transaction, one line `tx status: `
per iteration with the code `checkTransactionReceipt` returned in it, and the
line `tx confirmed!`; the last status code is 1 and the earlier ones are not.
The library fact used is that `crypto.HexToECDSA` rejects the empty string (a
key has 64 hex digits), so that a run whose `config.json` could not be opened
does not get past key derivation. -/
theorem main_console_output (lib : Lib) (w : World) (fuel n : Nat)
    (hempty : ∀ priv, lib.hexToECDSA "" ≠ .ok priv)
    (h : (main lib w fuel).outcome = .confirmed n) :
    ∃ client privateKey fromAddress third signedTx,
      w.dial (LoadConfiguration lib w "config.json").1.InfuraApiUrl = .ok client ∧
      GetKey lib (LoadConfiguration lib w "config.json").1.WalletPrivateKey =
        .ok (privateKey, fromAddress, third) ∧
      submitted (main lib w fuel).trace = [signedTx] ∧
      stdout (main lib w fuel).trace =
        ["Address: " ++ lib.addressString fromAddress,
         "tx sent: " ++ lib.hashHex (lib.txHash signedTx)] ++
        (List.range n).map (fun k => "tx status: " ++
          toString (checkTransactionReceipt lib client k (lib.hashHex (lib.txHash signedTx)))) ++
        ["tx confirmed!"] ∧
      0 < n ∧
      checkTransactionReceipt lib client (n - 1) (lib.hashHex (lib.txHash signedTx)) = 1 ∧
      ∀ k, k < n - 1 →
        checkTransactionReceipt lib client k (lib.hashHex (lib.txHash signedTx)) ≠ 1 := by
  cases hf : firstFailingStep lib w with
  | some s =>
    rw [(main_fatal lib w fuel s hf).1] at h
    cases h
  | none =>
    obtain ⟨client, gasPrice, privateKey, fromAddress, third, chainID, nonce, abiP, data, sig,
      hdial, hprice, hkey, hchain, hnonce, habi, hpack, hsign, hsend⟩ :=
      firstFailingStep_none lib w hf
    have hm := main_ok lib w fuel client gasPrice privateKey fromAddress third chainID nonce abiP
      data sig hdial hprice hkey hchain hnonce habi hpack hsign hsend
    rw [hm] at h ⊢
    simp only [] at h
    obtain ⟨-, hs, -, -⟩ := LoadConfiguration_events lib w "config.json"
    have hout := LoadConfiguration_stdout lib w hempty _ hkey
    obtain ⟨-, hq, -⟩ := pollLoop_quiet lib client (lib.hashHex (lib.txHash
      { assembleTx lib (LoadConfiguration lib w "config.json").1 nonce gasPrice data with
        V := sig.V, R := sig.R, S := sig.S })) fuel 0
    have hloop := pollLoop_stdout lib client _ fuel 0 n h
    obtain ⟨h1, -, h3, h4⟩ := (pollLoop_confirmed_iff lib client _ fuel 0 n).1 h
    refine ⟨client, privateKey, fromAddress, third, _, hdial, hkey, ?_, ?_, h1, h3,
      fun k hk => h4 k (Nat.zero_le k) hk⟩
    · simp [submitted_append, hs, hq, submitted]
    · simp only [stdout_append, hout, hloop]
      simp [stdout, List.range_eq_range']

theorem main_console_output_witness :
    ∃ client privateKey fromAddress third signedTx,
      demoWorld.dial (LoadConfiguration demoLib demoWorld "config.json").1.InfuraApiUrl =
        .ok client ∧
      GetKey demoLib (LoadConfiguration demoLib demoWorld "config.json").1.WalletPrivateKey =
        .ok (privateKey, fromAddress, third) ∧
      submitted (main demoLib demoWorld 5).trace = [signedTx] ∧
      stdout (main demoLib demoWorld 5).trace =
        ["Address: " ++ demoLib.addressString fromAddress,
         "tx sent: " ++ demoLib.hashHex (demoLib.txHash signedTx)] ++
        (List.range 3).map (fun k => "tx status: " ++
          toString (checkTransactionReceipt demoLib client k
            (demoLib.hashHex (demoLib.txHash signedTx)))) ++
        ["tx confirmed!"] ∧
      0 < 3 ∧
      checkTransactionReceipt demoLib client (3 - 1)
        (demoLib.hashHex (demoLib.txHash signedTx)) = 1 ∧
      ∀ k, k < 3 - 1 →
        checkTransactionReceipt demoLib client k
          (demoLib.hashHex (demoLib.txHash signedTx)) ≠ 1 :=
  main_console_output demoLib demoWorld 5 3 (fun priv hp => by cases hp) (by decide)

end EthereumGolang

